import Mathlib

/-!
# Verification of the fueleo fuel-price aggregator (`app.py`)

Shallow embedding of the single-file Flask application: a JSON value model
with a concrete serializer (`dumps`, modelling `json.dumps` with its default
`", "` / `": "` separators) and a concrete deserializer (`loads`, modelling
`json.loads` on the serializer's image), the ingestion pipeline
(`fetch_and_process_data`, `check_existing_data`, `mainRun` for `main`), and
the query endpoint (`get_prices`).

External collaborators (the HTTP client, Flask routing, SQLAlchemy/pandas
storage) are treated as given primitives: an HTTP fetch outcome is a value of
`Fetched` carrying the response's content type and the outcome of parsing its
body as JSON; the two database tables are explicit lists of rows; an uncaught
Python exception inside a Flask view is modelled as the `serverError`
response (Flask turns uncaught exceptions into HTTP 500).
-/

mutual

/-- JSON values, mutually with JSON arrays and JSON objects (objects keep
insertion order, as Python dicts do). Numeric literals are kept as their
source text (`num "1.45"`): the pipeline never does arithmetic on prices, it
only moves them between serialized and structured form. -/
inductive Json where
  | null : Json
  | jbool (b : Bool) : Json
  | num (lit : String) : Json
  | str (s : String) : Json
  | arr (a : JsonList) : Json
  | obj (o : JsonObj) : Json

inductive JsonList where
  | nil : JsonList
  | cons (hd : Json) (tl : JsonList) : JsonList

inductive JsonObj where
  | nil : JsonObj
  | cons (k : String) (v : Json) (tl : JsonObj) : JsonObj

end

/-- Lookup of a key in a JSON object (Python `dict` access: keys are unique
in any object produced by `json.loads`, so first match is the match). -/
def objGet : JsonObj → String → Option Json
  | .nil, _ => none
  | .cons k v t, key => if k = key then some v else objGet t key

/-- A JSON array as a Lean list of values. -/
def listOfJsonList : JsonList → List Json
  | .nil => []
  | .cons h t => h :: listOfJsonList t

/-- Characters that can occur in a JSON numeric literal. -/
def numChar (c : Char) : Bool :=
  c.isDigit || c = '.' || c = '-' || c = '+' || c = 'e' || c = 'E'

/-- Characters that `json.dumps` emits verbatim inside a string literal:
printable ASCII other than the quote and the backslash (everything else is
escaped by `json.dumps`, which the verbatim printer below does not model). -/
def strOkChar (c : Char) : Bool :=
  decide (32 ≤ c.toNat) && decide (c.toNat ≤ 126) && !(c = '"') && !(c = '\\')

/-- A string the verbatim printer handles faithfully. -/
def strOk (s : String) : Bool := s.data.all strOkChar

/-- A well-formed numeric literal for the purposes of the serializer model:
nonempty and made of number characters. -/
def numOk (s : String) : Bool := !s.data.isEmpty && s.data.all numChar

mutual

/-- Well-formedness of a JSON value for the serializer model: all string
payloads and keys escape-free printable ASCII, all numeric literals
nonempty number-character runs. -/
def jOk : Json → Bool
  | .null => true
  | .jbool _ => true
  | .num s => numOk s
  | .str s => strOk s
  | .arr a => lOk a
  | .obj o => oOk o

def lOk : JsonList → Bool
  | .nil => true
  | .cons h t => jOk h && lOk t

def oOk : JsonObj → Bool
  | .nil => true
  | .cons k v t => strOk k && jOk v && oOk t

end

mutual

/-- Serializer for JSON values: the character stream `json.dumps` produces
with its default separators (`", "` between items, `": "` after keys). -/
def printV : Json → List Char
  | .null => ['n', 'u', 'l', 'l']
  | .jbool true => ['t', 'r', 'u', 'e']
  | .jbool false => ['f', 'a', 'l', 's', 'e']
  | .num s => s.data
  | .str s => '"' :: (s.data ++ ['"'])
  | .arr .nil => ['[', ']']
  | .arr (.cons h t) => '[' :: (printV h ++ printL t ++ [']'])
  | .obj .nil => ['{', '}']
  | .obj (.cons k v t) =>
      '{' :: '"' :: (k.data ++ ['"', ':', ' '] ++ printV v ++ printO t ++ ['}'])

/-- Remaining array items, each preceded by the `", "` separator. -/
def printL : JsonList → List Char
  | .nil => []
  | .cons h t => ',' :: ' ' :: (printV h ++ printL t)

/-- Remaining object entries, each preceded by `", "`. -/
def printO : JsonObj → List Char
  | .nil => []
  | .cons k v t => ',' :: ' ' :: '"' :: (k.data ++ ['"', ':', ' '] ++ printV v ++ printO t)

end

/-- `json.dumps` as applied by the pipeline to the `location` and `prices`
sub-objects of each raw station record. -/
def dumps (j : Json) : String := String.mk (printV j)

mutual

/-- A structural size used as parser fuel. -/
def sizeV : Json → Nat
  | .null => 1
  | .jbool _ => 1
  | .num _ => 1
  | .str _ => 1
  | .arr a => sizeL a + 1
  | .obj o => sizeO o + 1

def sizeL : JsonList → Nat
  | .nil => 1
  | .cons h t => sizeV h + sizeL t + 1

def sizeO : JsonObj → Nat
  | .nil => 1
  | .cons _ v t => sizeV v + sizeO t + 1

end

/-- Consume an expected literal character sequence. -/
def expectChars : List Char → List Char → Option (List Char)
  | [], cs => some cs
  | _ :: _, [] => none
  | e :: es, c :: cs => if c = e then expectChars es cs else none

/-- Consume the body of a string literal up to the closing quote. -/
def takeStr : List Char → Option (List Char × List Char)
  | [] => none
  | c :: cs =>
    if c = '"' then some ([], cs)
    else
      match takeStr cs with
      | some (s, r) => some (c :: s, r)
      | none => none

/-- Consume the maximal run of number characters. -/
def takeNum : List Char → List Char × List Char
  | [] => ([], [])
  | c :: cs =>
    if numChar c then
      let p := takeNum cs
      (c :: p.1, p.2)
    else ([], c :: cs)

mutual

/-- Fuel-indexed deserializer for one JSON value, inverse of `printV` on its
image (it models `json.loads` on text produced by `json.dumps`). -/
def parseVal : Nat → List Char → Option (Json × List Char)
  | 0, _ => none
  | _ + 1, [] => none
  | fuel + 1, c :: cs =>
    if c = 'n' then (expectChars ['u', 'l', 'l'] cs).map (fun r => (.null, r))
    else if c = 't' then (expectChars ['r', 'u', 'e'] cs).map (fun r => (.jbool true, r))
    else if c = 'f' then (expectChars ['a', 'l', 's', 'e'] cs).map (fun r => (.jbool false, r))
    else if c = '"' then (takeStr cs).map (fun p => (.str (String.mk p.1), p.2))
    else if c = '[' then (parseItems fuel cs).map (fun p => (.arr p.1, p.2))
    else if c = '{' then (parseFields fuel cs).map (fun p => (.obj p.1, p.2))
    else if numChar c then
      let p := takeNum (c :: cs)
      if p.1.isEmpty then none else some (.num (String.mk p.1), p.2)
    else none

/-- The body of an array after `'['`: an immediately closing bracket is the
empty array, otherwise comma-separated items followed by `']'`. -/
def parseItems : Nat → List Char → Option (JsonList × List Char)
  | 0, _ => none
  | _ + 1, [] => none
  | fuel + 1, c :: cs =>
    if c = ']' then some (.nil, cs)
    else
      match parseVal fuel (c :: cs) with
      | none => none
      | some (v, r) =>
        match r with
        | ']' :: r2 => some (.cons v .nil, r2)
        | ',' :: ' ' :: r2 =>
          match parseItems fuel r2 with
          | some (a, r3) => some (.cons v a, r3)
          | none => none
        | _ => none

/-- The body of an object after `'{'`: an immediately closing brace is the
empty object, otherwise comma-separated `"key": value` fields then `'}'`. -/
def parseFields : Nat → List Char → Option (JsonObj × List Char)
  | 0, _ => none
  | _ + 1, [] => none
  | fuel + 1, c :: cs =>
    if c = '}' then some (.nil, cs)
    else if c = '"' then
      match takeStr cs with
      | none => none
      | some (k, r) =>
        match r with
        | ':' :: ' ' :: r2 =>
          match parseVal fuel r2 with
          | none => none
          | some (v, r3) =>
            match r3 with
            | '}' :: r4 => some (.cons (String.mk k) v .nil, r4)
            | ',' :: ' ' :: r4 =>
              match parseFields fuel r4 with
              | some (o, r5) => some (.cons (String.mk k) v o, r5)
              | none => none
            | _ => none
        | _ => none
    else none

end

/-- `json.loads`, modelled as running the deserializer with enough fuel and
requiring the whole input to be consumed. -/
def loads (s : String) : Option Json :=
  match parseVal (2 * s.data.length + 1) s.data with
  | some (j, []) => some j
  | _ => none

/-! ## Data model of the two tables and of raw station records -/

/-- One row of the `fuel_prices` table (the surrogate `id` column is assigned
by the store and plays no role in any behavior modelled here). The `location`
and `prices` columns hold JSON-serialized text, opaque to the store. -/
structure StoredRow where
  site_id : String
  brand : String
  address : String
  postcode : String
  location : String
  prices : String
  date : String

/-- The singleton row of the `fuel_prices_metadata` table. -/
structure MetaRow where
  last_updated : String

/-- Database state: the two tables created at startup. -/
structure DB where
  fuel_prices : List StoredRow
  fuel_prices_metadata : List MetaRow

/-- A raw per-source station record with the keys the pipeline touches;
`location` and `prices` keep their source-specific nested JSON shape. -/
structure RawStation where
  site_id : String
  brand : String
  address : String
  postcode : String
  location : Json
  prices : Json

/-- The fixed feed URL list from the top of `app.py`. -/
def urls : List String :=
  [ "https://applegreenstores.com/fuel-prices/data.json",
    "https://fuelprices.asconagroup.co.uk/newfuel.json",
    "https://storelocator.asda.com/fuel_prices_data.json",
    "https://fuelprices.esso.co.uk/latestdata.json",
    "https://jetlocal.co.uk/fuel_prices_data.json",
    "https://www.morrisons.com/fuel-prices/fuel.json",
    "https://moto-way.com/fuel-price/fuel_prices.json",
    "https://fuel.motorfuelgroup.com/fuel_prices_data.json",
    "https://www.rontec-servicestations.co.uk/fuel-prices/data/fuel_prices_data.json",
    "https://api.sainsburys.co.uk/v1/exports/latest/fuel_prices_data.json",
    "https://www.sgnretail.uk/files/data/SGN_daily_fuel_prices.json",
    "https://www.tesco.com/fuel_prices/fuel_prices_data.json" ]

/-! ## Feed fetcher (`fetch_and_process_data`) -/

/-- Python `needle in hay` on strings: contiguous substring test. -/
def isPre : List Char → List Char → Bool
  | [], _ => true
  | _ :: _, [] => false
  | a :: as, b :: bs => a = b && isPre as bs

/-- Substring occurrence at any position. -/
def containsSub (n : List Char) : List Char → Bool
  | [] => isPre n []
  | c :: t => isPre n (c :: t) || containsSub n t

/-- Python's `needle in hay` for strings. -/
def pyInStr (needle hay : String) : Bool := containsSub needle.data hay.data

/-- The outcome of `requests.get(url)` followed by parsing the body as JSON,
the two external primitives of the fetcher: either the request raised, or a
response arrived with some `Content-Type` header value (absent modelled as
`""`, matching the code's `.get('Content-Type', '')` default) and a body
that either is not valid JSON (`none`: `json.loads` raises) or parses to a
JSON value. -/
inductive Fetched where
  | netError : Fetched
  | resp (contentType : String) (body : Option Json) : Fetched

/-- The line `stations = data.get('stations', data)`: on a mapping, the value
under `'stations'`, defaulting to the whole mapping; on any non-mapping
(a bare array, a string, ...) the attribute lookup `.get` raises
`AttributeError`, modelled as `none`. -/
def extractStations : Json → Option Json
  | .obj o => some ((objGet o "stations").getD (.obj o))
  | _ => none

/-- Decoding one station element into the record shape the pipeline relies
on (`pd.DataFrame(stations)` followed by the `location`/`prices`/`date`
column operations). An element missing the touched keys or with non-string
scalar columns makes those operations raise, which the fetcher's
`except` swallows; such shapes are modelled as `none`. -/
def recordOfJson : Json → Option RawStation
  | .obj o =>
    match objGet o "site_id", objGet o "brand", objGet o "address",
          objGet o "postcode", objGet o "location", objGet o "prices" with
    | some (.str si), some (.str b), some (.str a), some (.str pc), some loc, some pr =>
      some ⟨si, b, a, pc, loc, pr⟩
    | _, _, _, _, _, _ => none
  | _ => none

/-- Option-valued map over a list, failing on the first failure (the order in
which a Python loop raises). -/
def optMapM (f : α → Option β) : List α → Option (List β)
  | [] => some []
  | a :: as =>
    match f a with
    | none => none
    | some b =>
      match optMapM f as with
      | none => none
      | some bs => some (b :: bs)

/-- The station sequence as a list of records: the `pd.DataFrame(stations)`
step of the fetcher for a stations value that is an array of well-formed
records; any other shape takes the fetcher's exception path. -/
def stationsToRecords : Json → Option (List RawStation)
  | .arr a => optMapM recordOfJson (listOfJsonList a)
  | _ => none

/-- The normalizer step on one record: serialize `location` and `prices`
with `json.dumps` and stamp the row with the run's current date
(`df['location'] = df['location'].apply(json.dumps)` and friends). -/
def normalizeRecord (today : String) (s : RawStation) : StoredRow :=
  { site_id := s.site_id, brand := s.brand, address := s.address,
    postcode := s.postcode, location := dumps s.location,
    prices := dumps s.prices, date := today }

/-- `fetch_and_process_data(url)`: content-type gate, JSON parse, station
extraction, normalization; every failure is caught by the surrounding
`try`/`except` and yields the empty row list (the code's empty DataFrame). -/
def fetch_and_process_data (today : String) (f : Fetched) : List StoredRow :=
  match f with
  | .netError => []
  | .resp ct body =>
    if pyInStr "application/json" ct || pyInStr "text/plain" ct then
      match body with
      | none => []
      | some data =>
        match extractStations data with
        | none => []
        | some stations =>
          match stationsToRecords stations with
          | none => []
          | some recs => recs.map (normalizeRecord today)
    else []

/-! ## Orchestrator (`check_existing_data`, `main`) -/

/-- `check_existing_data(conn, url)`: `SELECT date FROM fuel_prices WHERE
date = today` and test `len(result) > 0`. The `url` argument is accepted but
never used in the query. -/
def check_existing_data (rows : List StoredRow) (today : String) (url : String) : Bool :=
  decide (0 < (rows.filter (fun r => r.date == today)).length)

/-- The per-URL loop body of `main`: skip a URL whose data for today already
exists, fetch the rest, keep only nonempty DataFrames. The existence check
runs against the table as it was when the run started, since the bulk
append happens only after the loop. -/
def gatherFrames (rows : List StoredRow) (today : String) :
    List (String × Fetched) → List (List StoredRow)
  | [] => []
  | (u, o) :: rest =>
    if check_existing_data rows today u then gatherFrames rows today rest
    else
      let df := fetch_and_process_data today o
      if df.isEmpty then gatherFrames rows today rest
      else df :: gatherFrames rows today rest

/-- `main()`: one aggregation run. `outcomes` lists the fetch outcome of each
configured URL in order. A nonempty batch is bulk-appended and the metadata
row replaced (delete-all, insert-one) with the current timestamp `now`;
an empty batch leaves both tables untouched. -/
def mainRun (db : DB) (today now : String) (outcomes : List Fetched) : DB :=
  let dfs := gatherFrames db.fuel_prices today (urls.zip outcomes)
  if dfs.isEmpty then db
  else
    { fuel_prices := db.fuel_prices ++ dfs.flatten,
      fuel_prices_metadata := [{ last_updated := now }] }

/-! ## Query service (`get_prices`) -/

/-- Does a numeric literal have a nonzero digit? A JSON numeric literal
denotes zero exactly when all of its digits are `0` (float underflow of
tiny nonzero literals is outside this model and outside every claim). -/
def numNonzero (s : String) : Bool := s.data.any (fun c => c.isDigit && !(c = '0'))

/-- Python truthiness of a JSON value, as used by
`if filters.get(key, True)`. -/
def pyTruthy : Json → Bool
  | .null => false
  | .jbool b => b
  | .num s => numNonzero s
  | .str s => !s.data.isEmpty
  | .arr .nil => false
  | .arr (.cons _ _) => true
  | .obj .nil => false
  | .obj (.cons _ _ _) => true

/-- `filters.get(key, True)` for a filters mapping: the key's value's
truthiness, defaulting to `True` when the key is absent. -/
def flagOf (fo : JsonObj) (k : String) : Bool :=
  match objGet fo k with
  | some v => pyTruthy v
  | none => true

/-- `filters.get(key, True)` on an arbitrary parsed filters value: a
non-mapping has no `.get`, so the lookup raises (`none`). -/
def pyFlag (filters : Json) (k : String) : Option Bool :=
  match filters with
  | .obj fo => some (flagOf fo k)
  | _ => none

/-- `prices.get(code)` on an arbitrary parsed prices value: `none` models the
`AttributeError` on a non-mapping, `some r` the lookup result `r`. -/
def pyGet (j : Json) (k : String) : Option (Option Json) :=
  match j with
  | .obj o => some (objGet o k)
  | _ => none

/-- One element of the response array: `None` fields are emitted as JSON
`null` by `jsonify`. -/
structure StationOut where
  brand : String
  address : String
  postcode : String
  unleaded : Option Json
  superUnleaded : Option Json
  diesel : Option Json

/-- The station dict built in the response loop. Each field first evaluates
its filter flag and only then, when the flag is truthy, the price lookup —
mirroring Python's conditional-expression evaluation order. A raised
exception anywhere is `none`. -/
def buildStation (filters : Json) (r : StoredRow) (pr : Json) : Option StationOut := do
  let fUnl ← pyFlag filters "unleaded"
  let vUnl ← if fUnl then pyGet pr "E10" else some none
  let fSup ← pyFlag filters "superUnleaded"
  let vSup ← if fSup then pyGet pr "E5" else some none
  let fDie ← pyFlag filters "diesel"
  let vDie ← if fDie then pyGet pr "B7" else some none
  some { brand := r.brand, address := r.address, postcode := r.postcode,
         unleaded := vUnl, superUnleaded := vSup, diesel := vDie }

/-- The station dict in the exception-free case: filters mapping `fo`,
prices mapping `po`. -/
def stationOf (fo : JsonObj) (r : StoredRow) (po : JsonObj) : StationOut :=
  { brand := r.brand, address := r.address, postcode := r.postcode,
    unleaded := if flagOf fo "unleaded" then objGet po "E10" else none,
    superUnleaded := if flagOf fo "superUnleaded" then objGet po "E5" else none,
    diesel := if flagOf fo "diesel" then objGet po "B7" else none }

/-- One pattern character against one subject character, with
`re.IGNORECASE` case folding; `'.'` is the regex any-character wildcard. -/
def charMatch (p c : Char) : Bool := p = '.' || p.toLower = c.toLower

/-- Matching the whole pattern at the start of the subject. -/
def matchHere : List Char → List Char → Bool
  | [], _ => true
  | _ :: _, [] => false
  | p :: ps, c :: cs => charMatch p c && matchHere ps cs

/-- `re.search` (which `pandas.Series.str.contains` delegates to, since its
`regex` parameter defaults to `True`): the pattern may match at any
position. Modelled for patterns built from literal characters and the `'.'`
wildcard; other regex metacharacters are outside this model and outside
every claim. -/
def reSearch (ps : List Char) : List Char → Bool
  | [] => matchHere ps []
  | c :: cs => matchHere ps (c :: cs) || reSearch ps cs

/-- Lower-cased character content of a string. -/
def lowerChars (s : String) : List Char := s.data.map Char.toLower

/-- Case-insensitive contiguous-substring test. -/
def substrCI (needle hay : String) : Bool := containsSub (lowerChars needle) (lowerChars hay)

/-- Deserializing one stored row's `location` and `prices` text blobs
(`df['location'].apply(json.loads)` and friends); `none` models the raised
`json.JSONDecodeError` on a blob that is not in the serializer's image. -/
def rowParsed (r : StoredRow) : Option (StoredRow × Json × Json) :=
  match loads r.location, loads r.prices with
  | some l, some p => some (r, l, p)
  | _, _ => none

/-- The parsed `prices` mapping of a row whose blob deserializes to a
mapping (`JsonObj.nil` as a don't-care fallback elsewhere). -/
def prObjOf (r : StoredRow) : JsonObj :=
  match loads r.prices with
  | some (.obj po) => po
  | _ => .nil

/-- A query response: either `200 OK` with the JSON array body, or the
`500 Internal Server Error` Flask produces from an uncaught exception. -/
inductive HttpResp where
  | ok (body : List StationOut) : HttpResp
  | serverError : HttpResp

/-- The HTTP status code of a response. -/
def statusOf : HttpResp → Nat
  | .ok _ => 200
  | .serverError => 500

/-- Whether `re.compile` accepts the postcode pattern, modelled on the
pattern fragment this embedding covers: a pattern made of regex-literal
characters (letters, digits, spaces) and the `'.'` wildcard always
compiles. A pattern containing any other metacharacter lies outside the
modelled fragment and is conservatively routed to the error path; of those
patterns, an unmatched `'('` really does make `re.compile` raise
`re.error`, and no theorem below relies on any other outside-fragment
behavior. -/
def rePatOk (ps : List Char) : Bool :=
  ps.all (fun c => c.isAlphanum || c = ' ' || c = '.')

/-- `GET /api/prices`. `pc` is the `postcode` query parameter (default `''`),
`filtersParse` the outcome of `json.loads` on the `filters` parameter
(default `'{}'`, which parses to the empty mapping): `none` means the
parameter was not valid JSON and `json.loads` raises. The view then loads
today's rows, deserializes their blobs, applies the postcode filter
(`df['postcode'].str.contains(postcode, case=False)`, skipped for a falsy
empty string; `str.contains` first compiles the parameter as a regular
expression — with `re.IGNORECASE`, since `regex=True` is the default — and
an uncompilable pattern raises `re.error` out of the view even over an
empty frame), and builds one output dict per remaining row. -/
def get_prices (db : List StoredRow) (today : String) (pc : String)
    (filtersParse : Option Json) : HttpResp :=
  match filtersParse with
  | none => .serverError
  | some filters =>
    match optMapM rowParsed (db.filter (fun r => r.date == today)) with
    | none => .serverError
    | some parsed =>
      match (if pc = "" then some parsed
             else if rePatOk pc.data then
               some (parsed.filter (fun t => reSearch pc.data t.1.postcode.data))
             else none) with
      | none => .serverError
      | some kept =>
        match optMapM (fun t => buildStation filters t.1 t.2.2) kept with
        | none => .serverError
        | some out => .ok out

/-- The postcode retention predicate on rows, as a single boolean. -/
def keepRow (pc : String) (r : StoredRow) : Bool :=
  pc == "" || reSearch pc.data r.postcode.data

/-- Every row of `l` deserializes, with a `prices` blob that is a mapping:
the exception-free precondition of the response loop. Rows written by the
orchestrator satisfy it whenever the raw `prices` value was a well-formed
mapping, by the round-trip law. -/
def RowsParseObj (l : List StoredRow) : Prop :=
  ∀ r ∈ l, (loads r.location).isSome ∧ ∃ po, loads r.prices = some (.obj po)

/-! ## Round-trip of the serializer and the deserializer -/

theorem strEta (s : String) : String.mk s.data = s := rfl

/-- Delimiters that can follow a printed value inside a larger printed
value, or the end of input. -/
def delimB : List Char → Bool
  | [] => true
  | c :: _ => c = ',' || c = ']' || c = '}'

/-- Characters that can start a printed well-formed value. -/
def startChar (c : Char) : Bool :=
  c = 'n' || c = 't' || c = 'f' || c = '"' || c = '[' || c = '{' || numChar c

theorem strOk_ne_quote {s : String} (h : strOk s = true) :
    ∀ c ∈ s.data, ¬(c = '"') := by
  intro c hc
  have hall := (List.all_eq_true.mp h) c hc
  simp [strOkChar] at hall
  exact hall.1.2

theorem takeStr_append (s rest : List Char) (h : ∀ c ∈ s, ¬(c = '"')) :
    takeStr (s ++ '"' :: rest) = some (s, rest) := by
  induction s with
  | nil => simp [takeStr]
  | cons c cs ih =>
    have hc : ¬(c = '"') := h c (by simp)
    have ih2 := ih (fun x hx => h x (by simp [hx]))
    simp [takeStr, hc, ih2]

theorem numChar_ne {c : Char} (h : numChar c = true) :
    ¬(c = 'n') ∧ ¬(c = 't') ∧ ¬(c = 'f') ∧ ¬(c = '"') ∧ ¬(c = '[') ∧
    ¬(c = '{') ∧ ¬(c = ']') ∧ ¬(c = '}') ∧ ¬(c = ',') := by
  refine ⟨?_, ?_, ?_, ?_, ?_, ?_, ?_, ?_, ?_⟩ <;>
    (rintro rfl; revert h; decide)

theorem takeNum_append (ds rest : List Char) (h : ∀ c ∈ ds, numChar c = true)
    (hrest : delimB rest = true) : takeNum (ds ++ rest) = (ds, rest) := by
  induction ds with
  | nil =>
    cases rest with
    | nil => simp [takeNum]
    | cons c cs =>
      have : numChar c = false := by
        simp only [delimB, Bool.or_eq_true, decide_eq_true_eq] at hrest
        rcases hrest with (h1 | h1) | h1 <;> (subst h1; decide)
      simp [takeNum, this]
  | cons c cs ih =>
    have hc : numChar c = true := h c (by simp)
    have ih2 := ih (fun x hx => h x (by simp [hx]))
    simp [takeNum, hc, ih2]

theorem sizeV_pos (j : Json) : 1 ≤ sizeV j := by
  cases j <;> simp [sizeV]

theorem sizeL_pos (a : JsonList) : 1 ≤ sizeL a := by
  cases a <;> simp [sizeL]

theorem sizeO_pos (o : JsonObj) : 1 ≤ sizeO o := by
  cases o <;> simp [sizeO]

theorem printV_head {j : Json} (h : jOk j = true) :
    ∃ c cs, printV j = c :: cs ∧ startChar c = true := by
  cases j with
  | null => exact ⟨'n', _, rfl, by decide⟩
  | jbool b => cases b
               · exact ⟨'f', _, rfl, by decide⟩
               · exact ⟨'t', _, rfl, by decide⟩
  | str s => exact ⟨'"', _, rfl, by decide⟩
  | num s =>
    have hnum : numOk s = true := by simpa [jOk] using h
    cases hd : s.data with
    | nil => rw [numOk, hd] at hnum; simp at hnum
    | cons c ds =>
      have hc : numChar c = true := by
        have hall : ∀ x ∈ s.data, numChar x = true := by
          simp [numOk] at hnum; exact hnum.2
        exact hall c (by rw [hd]; simp)
      exact ⟨c, ds, by simp [printV, hd], by simp [startChar, hc]⟩
  | arr a =>
    cases a with
    | nil => exact ⟨'[', _, rfl, by decide⟩
    | cons hd t => exact ⟨'[', _, rfl, by decide⟩
  | obj o =>
    cases o with
    | nil => exact ⟨'{', _, rfl, by decide⟩
    | cons k v t => exact ⟨'{', _, rfl, by decide⟩

theorem startChar_ne_rbracket {c : Char} (h : startChar c = true) : ¬(c = ']') := by
  rintro rfl; revert h; decide

theorem delimB_printL (t : JsonList) (rest : List Char) :
    delimB (printL t ++ (']' :: rest)) = true := by
  cases t <;> simp [printL, delimB]

theorem delimB_printO (t : JsonObj) (rest : List Char) :
    delimB (printO t ++ ('}' :: rest)) = true := by
  cases t <;> simp [printO, delimB]

theorem parseVal_lbracket (fuel : Nat) (cs : List Char) :
    parseVal (fuel + 1) ('[' :: cs) =
      (parseItems fuel cs).map (fun p => (.arr p.1, p.2)) := by
  simp [parseVal]

theorem parseVal_lbrace (fuel : Nat) (cs : List Char) :
    parseVal (fuel + 1) ('{' :: cs) =
      (parseFields fuel cs).map (fun p => (.obj p.1, p.2)) := by
  simp [parseVal]

theorem parseItems_ne (fuel : Nat) (c : Char) (cs : List Char) (hne : ¬(c = ']')) :
    parseItems (fuel + 1) (c :: cs) =
      match parseVal fuel (c :: cs) with
      | none => none
      | some (v, r) =>
        match r with
        | ']' :: r2 => some (.cons v .nil, r2)
        | ',' :: ' ' :: r2 =>
          match parseItems fuel r2 with
          | some (a, r3) => some (.cons v a, r3)
          | none => none
        | _ => none := by
  simp only [parseItems]
  rw [if_neg hne]

theorem parseVal_numhead (fuel : Nat) (c : Char) (cs : List Char) (hc : numChar c = true) :
    parseVal (fuel + 1) (c :: cs) =
      (if (takeNum (c :: cs)).1.isEmpty then none
       else some (.num (String.mk (takeNum (c :: cs)).1), (takeNum (c :: cs)).2)) := by
  have hne := numChar_ne hc
  simp only [parseVal]
  rw [if_neg hne.1, if_neg hne.2.1, if_neg hne.2.2.1, if_neg hne.2.2.2.1,
      if_neg hne.2.2.2.2.1, if_neg hne.2.2.2.2.2.1, if_pos hc]

theorem parseFields_step (fuel : Nat) (k : String) (R : List Char)
    (hq : ∀ c ∈ k.data, ¬(c = '"')) :
    parseFields (fuel + 1) ('"' :: (k.data ++ ('"' :: ':' :: ' ' :: R))) =
      match parseVal fuel R with
      | none => none
      | some (v, r3) =>
        match r3 with
        | '}' :: r4 => some (.cons k v .nil, r4)
        | ',' :: ' ' :: r4 =>
          match parseFields fuel r4 with
          | some (o, r5) => some (.cons k v o, r5)
          | none => none
        | _ => none := by
  simp only [parseFields]
  rw [takeStr_append k.data _ hq]
  simp [strEta]

theorem parsePrint : ∀ fuel : Nat,
    (∀ (j : Json) (rest : List Char), sizeV j ≤ fuel → jOk j = true → delimB rest = true →
      parseVal fuel (printV j ++ rest) = some (j, rest)) ∧
    (∀ (hd : Json) (t : JsonList) (rest : List Char),
      sizeV hd + sizeL t + 1 ≤ fuel → jOk hd = true → lOk t = true →
      parseItems fuel (printV hd ++ (printL t ++ (']' :: rest))) = some (.cons hd t, rest)) ∧
    (∀ (k : String) (v : Json) (t : JsonObj) (rest : List Char),
      sizeV v + sizeO t + 1 ≤ fuel → strOk k = true → jOk v = true → oOk t = true →
      parseFields fuel
          ('"' :: (k.data ++ ('"' :: ':' :: ' ' :: (printV v ++ (printO t ++ ('}' :: rest)))))) =
        some (.cons k v t, rest)) := by
  intro fuel
  induction fuel with
  | zero =>
    refine ⟨?_, ?_, ?_⟩
    · intro j rest hs _ _
      exact absurd hs (by have := sizeV_pos j; omega)
    · intro hd t rest hs _ _
      exact absurd hs (by have := sizeV_pos hd; omega)
    · intro k v t rest hs _ _ _
      exact absurd hs (by have := sizeV_pos v; omega)
  | succ fuel ih =>
    obtain ⟨ihV, ihL, ihO⟩ := ih
    refine ⟨?_, ?_, ?_⟩
    · intro j rest hs hok hdelim
      cases j with
      | null => simp [printV, parseVal, expectChars]
      | jbool b => cases b <;> simp [printV, parseVal, expectChars]
      | str s =>
        have hq := strOk_ne_quote (show strOk s = true by simpa [jOk] using hok)
        simp only [printV, List.cons_append, List.append_assoc, List.singleton_append,
            List.nil_append]
        simp [parseVal, takeStr_append s.data rest hq, strEta]
      | num s =>
        have hnum : numOk s = true := by simpa [jOk] using hok
        cases hd : s.data with
        | nil => rw [numOk, hd] at hnum; simp at hnum
        | cons c ds =>
          have hall : ∀ x ∈ s.data, numChar x = true := by
            simp [numOk] at hnum; exact hnum.2
          have hc : numChar c = true := hall c (by rw [hd]; simp)
          have hds : ∀ x ∈ ds, numChar x = true := fun x hx => hall x (by rw [hd]; simp [hx])
          have ht : takeNum (c :: (ds ++ rest)) = (c :: ds, rest) := by
            simp [takeNum, hc, takeNum_append ds rest hds hdelim]
          simp only [printV, hd, List.cons_append]
          rw [parseVal_numhead fuel c (ds ++ rest) hc, ht]
          simp only [List.isEmpty_cons, Bool.false_eq_true, if_false]
          rw [← hd, strEta]
      | arr a =>
        cases a with
        | nil =>
          cases fuel with
          | zero => exfalso; simp only [sizeV, sizeL] at hs; omega
          | succ f => simp [printV, parseVal, parseItems]
        | cons hd t =>
          have hokl : jOk hd = true ∧ lOk t = true := by
            simpa [jOk, lOk, Bool.and_eq_true] using hok
          have hsz : sizeV hd + sizeL t + 1 ≤ fuel := by
            simp only [sizeV, sizeL] at hs; omega
          simp only [printV, List.cons_append, List.append_assoc, List.singleton_append,
            List.nil_append]
          rw [parseVal_lbracket]
          rw [ihL hd t rest hsz hokl.1 hokl.2]
          simp
      | obj o =>
        cases o with
        | nil =>
          cases fuel with
          | zero => exfalso; simp only [sizeV, sizeO] at hs; omega
          | succ f => simp [printV, parseVal, parseFields]
        | cons k v t =>
          have hoks : strOk k = true ∧ jOk v = true ∧ oOk t = true := by
            simpa [jOk, oOk, Bool.and_eq_true, and_assoc] using hok
          have hsz : sizeV v + sizeO t + 1 ≤ fuel := by
            simp only [sizeV, sizeO] at hs; omega
          simp only [printV, List.cons_append, List.append_assoc, List.singleton_append,
            List.nil_append]
          rw [parseVal_lbrace]
          rw [ihO k v t rest hsz hoks.1 hoks.2.1 hoks.2.2]
          simp
    · intro hd t rest hs hokh hokt
      have hszh : sizeV hd ≤ fuel := by have := sizeL_pos t; omega
      have hdel : delimB (printL t ++ (']' :: rest)) = true := delimB_printL t rest
      obtain ⟨c, cs2, hhead, hstart⟩ := printV_head hokh
      rw [hhead, List.cons_append]
      rw [parseItems_ne fuel c _ (startChar_ne_rbracket hstart)]
      rw [← List.cons_append, ← hhead]
      rw [ihV hd (printL t ++ (']' :: rest)) hszh hokh hdel]
      cases t with
      | nil => simp [printL]
      | cons hd2 t2 =>
        have hok2 : jOk hd2 = true ∧ lOk t2 = true := by
          simpa [lOk, Bool.and_eq_true] using hokt
        have hsz2 : sizeV hd2 + sizeL t2 + 1 ≤ fuel := by
          simp only [sizeL] at hs
          have := sizeV_pos hd; omega
        simp only [printL, List.cons_append, List.append_assoc]
        rw [ihL hd2 t2 rest hsz2 hok2.1 hok2.2]
    · intro k v t rest hs hk hv ht
      have hq := strOk_ne_quote hk
      have hszv : sizeV v ≤ fuel := by have := sizeO_pos t; omega
      have hdel : delimB (printO t ++ ('}' :: rest)) = true := delimB_printO t rest
      rw [parseFields_step fuel k _ hq]
      rw [ihV v (printO t ++ ('}' :: rest)) hszv hv hdel]
      cases t with
      | nil => simp [printO]
      | cons k2 v2 t2 =>
        have hok2 : strOk k2 = true ∧ jOk v2 = true ∧ oOk t2 = true := by
          simpa [oOk, Bool.and_eq_true, and_assoc] using ht
        have hsz2 : sizeV v2 + sizeO t2 + 1 ≤ fuel := by
          simp only [sizeO] at hs
          have := sizeV_pos v; omega
        have hO := ihO k2 v2 t2 rest hsz2 hok2.1 hok2.2.1 hok2.2.2
        simp only [printO, List.cons_append, List.append_assoc, List.nil_append]
        simp [hO]

theorem sizeLe_aux : ∀ n : Nat,
    (∀ j : Json, sizeV j ≤ n → sizeV j ≤ 2 * (printV j).length + 1) ∧
    (∀ a : JsonList, sizeL a ≤ n → sizeL a ≤ 2 * (printL a).length + 2) ∧
    (∀ o : JsonObj, sizeO o ≤ n → sizeO o ≤ 2 * (printO o).length + 2) := by
  intro n
  induction n with
  | zero =>
    refine ⟨?_, ?_, ?_⟩
    · intro j hs; exact absurd hs (by have := sizeV_pos j; omega)
    · intro a hs; exact absurd hs (by have := sizeL_pos a; omega)
    · intro o hs; exact absurd hs (by have := sizeO_pos o; omega)
  | succ n ih =>
    obtain ⟨ihV, ihL, ihO⟩ := ih
    refine ⟨?_, ?_, ?_⟩
    · intro j hs
      cases j with
      | null => simp [sizeV, printV]
      | jbool b => cases b <;> simp [sizeV, printV]
      | num s => simp [sizeV]
      | str s => simp [sizeV]
      | arr a =>
        cases a with
        | nil => simp [sizeV, sizeL, printV]
        | cons hd t =>
          have e1 := ihV hd (by
            simp only [sizeV, sizeL] at hs; have := sizeL_pos t; omega)
          have e2 := ihL t (by
            simp only [sizeV, sizeL] at hs; have := sizeV_pos hd; omega)
          simp only [sizeV, sizeL, printV, List.length_cons, List.length_append,
            List.length_singleton] at e1 e2 ⊢
          omega
      | obj o =>
        cases o with
        | nil => simp [sizeV, sizeO, printV]
        | cons k v t =>
          have e1 := ihV v (by
            simp only [sizeV, sizeO] at hs; have := sizeO_pos t; omega)
          have e2 := ihO t (by
            simp only [sizeV, sizeO] at hs; have := sizeV_pos v; omega)
          simp only [sizeV, sizeO, printV, List.length_cons, List.length_append,
            List.length_singleton] at e1 e2 ⊢
          omega
    · intro a hs
      cases a with
      | nil => simp [sizeL, printL]
      | cons hd t =>
        have e1 := ihV hd (by
          simp only [sizeL] at hs; have := sizeL_pos t; omega)
        have e2 := ihL t (by
          simp only [sizeL] at hs; have := sizeV_pos hd; omega)
        simp only [sizeL, printL, List.length_cons, List.length_append] at e1 e2 ⊢
        omega
    · intro o hs
      cases o with
      | nil => simp [sizeO, printO]
      | cons k v t =>
        have e1 := ihV v (by
          simp only [sizeO] at hs; have := sizeO_pos t; omega)
        have e2 := ihO t (by
          simp only [sizeO] at hs; have := sizeV_pos v; omega)
        simp only [sizeO, printO, List.length_cons, List.length_append,
          List.length_singleton] at e1 e2 ⊢
        omega

theorem loads_dumps (j : Json) (h : jOk j = true) : loads (dumps j) = some j := by
  have hsz : sizeV j ≤ 2 * (printV j).length + 1 := (sizeLe_aux (sizeV j)).1 j le_rfl
  have hp := (parsePrint (2 * (printV j).length + 1)).1 j [] hsz h (by simp [delimB])
  simp only [List.append_nil] at hp
  simp [loads, dumps, hp]

/-! ## Regex search vs. case-insensitive substring containment -/

/-- Characters that a regular expression treats as literals (the safe subset
under which the postcode filter behaves as a substring match): letters,
digits and the space. -/
def plainChar (c : Char) : Bool := c.isAlphanum || c = ' '

theorem plainChar_ne_dot {c : Char} (h : plainChar c = true) : ¬(c = '.') := by
  rintro rfl; revert h; decide

theorem matchHere_plain (ps : List Char) (hp : ∀ p ∈ ps, plainChar p = true) :
    ∀ cs : List Char,
      matchHere ps cs = isPre (ps.map Char.toLower) (cs.map Char.toLower) := by
  induction ps with
  | nil => intro cs; simp [matchHere, isPre]
  | cons p ps ih =>
    intro cs
    have hpd := plainChar_ne_dot (hp p (by simp))
    have ih2 := ih (fun x hx => hp x (by simp [hx]))
    cases cs with
    | nil => simp [matchHere, isPre]
    | cons c cs2 => simp [matchHere, isPre, charMatch, hpd, ih2]

theorem reSearch_plain (ps : List Char) (hp : ∀ p ∈ ps, plainChar p = true) :
    ∀ cs : List Char,
      reSearch ps cs = containsSub (ps.map Char.toLower) (cs.map Char.toLower) := by
  intro cs
  induction cs with
  | nil => simp [reSearch, containsSub, matchHere_plain ps hp]
  | cons c cs2 ih => simp [reSearch, containsSub, matchHere_plain ps hp, ih]

/-- Under a metacharacter-free pattern, the postcode search is exactly the
case-insensitive substring test. -/
theorem reSearch_eq_substrCI (pc s : String) (hp : ∀ c ∈ pc.data, plainChar c = true) :
    reSearch pc.data s.data = substrCI pc s := by
  rw [substrCI, lowerChars, lowerChars, reSearch_plain pc.data hp]

/-- A metacharacter-free pattern lies inside the modelled compilable
fragment. -/
theorem rePatOk_of_plain {pc : String} (hp : ∀ c ∈ pc.data, plainChar c = true) :
    rePatOk pc.data = true := by
  rw [rePatOk, List.all_eq_true]
  intro c hc
  have hpc := hp c hc
  simp only [plainChar, Bool.or_eq_true, decide_eq_true_eq] at hpc
  rcases hpc with h1 | h1 <;> simp [h1]

/-- A successful substring containment puts every character of the needle
into the haystack (used to refute containment at concrete inputs). -/
theorem containsSub_of_isPre (n h : List Char) :
    isPre n h = true → ∀ c ∈ n, c ∈ h := by
  induction n generalizing h with
  | nil => intro _ c hc; cases hc
  | cons a as ih =>
    intro hpre c hc
    cases h with
    | nil => cases hpre
    | cons b bs =>
      simp only [isPre, Bool.and_eq_true, decide_eq_true_eq] at hpre
      rcases List.mem_cons.mp hc with rfl | hc2
      · simp [hpre.1]
      · exact List.mem_cons_of_mem _ (ih bs hpre.2 c hc2)

/-! ## Orchestrator lemmas -/

theorem check_existing_data_iff (rows : List StoredRow) (today url : String) :
    check_existing_data rows today url = true ↔ ∃ r ∈ rows, r.date = today := by
  rw [check_existing_data, decide_eq_true_iff]
  constructor
  · intro h
    have hne : rows.filter (fun r => r.date == today) ≠ [] := by
      intro hnil; rw [hnil] at h; simp at h
    obtain ⟨r, hr⟩ := List.exists_mem_of_ne_nil _ hne
    have := List.mem_filter.mp hr
    exact ⟨r, this.1, by simpa using this.2⟩
  · intro ⟨r, hmem, hdate⟩
    have : r ∈ rows.filter (fun r => r.date == today) :=
      List.mem_filter.mpr ⟨hmem, by simp [hdate]⟩
    exact List.length_pos.mpr (fun hnil => by rw [hnil] at this; cases this)

theorem gatherFrames_flatten (rows : List StoredRow) (today : String)
    (pairs : List (String × Fetched)) :
    (gatherFrames rows today pairs).flatten =
      (pairs.map (fun p =>
        if check_existing_data rows today p.1 then []
        else fetch_and_process_data today p.2)).flatten := by
  induction pairs with
  | nil => simp [gatherFrames]
  | cons p rest ih =>
    obtain ⟨u, o⟩ := p
    by_cases hc : check_existing_data rows today u
    · simp [gatherFrames, hc, ih]
    · by_cases he : (fetch_and_process_data today o).isEmpty
      · have : fetch_and_process_data today o = [] := by
          simpa [List.isEmpty_iff] using he
        simp [gatherFrames, hc, he, ih, this]
      · simp [gatherFrames, hc, he, ih]

theorem gatherFrames_nil (rows : List StoredRow) (today : String)
    (pairs : List (String × Fetched))
    (h : ∀ p ∈ pairs, check_existing_data rows today p.1 = true ∨
          fetch_and_process_data today p.2 = []) :
    gatherFrames rows today pairs = [] := by
  induction pairs with
  | nil => simp [gatherFrames]
  | cons p rest ih =>
    obtain ⟨u, o⟩ := p
    have ih2 := ih (fun q hq => h q (by simp [hq]))
    rcases h (u, o) (by simp) with hc | he
    · simp [gatherFrames, hc, ih2]
    · simp [gatherFrames, he, ih2]

theorem mainRun_fuel_prices (db : DB) (today now : String) (os : List Fetched) :
    (mainRun db today now os).fuel_prices =
      db.fuel_prices ++
        ((urls.zip os).map (fun p =>
          if check_existing_data db.fuel_prices today p.1 then []
          else fetch_and_process_data today p.2)).flatten := by
  rw [mainRun]
  by_cases he : (gatherFrames db.fuel_prices today (urls.zip os)).isEmpty
  · have hnil : gatherFrames db.fuel_prices today (urls.zip os) = [] := by
      simpa [List.isEmpty_iff] using he
    have := gatherFrames_flatten db.fuel_prices today (urls.zip os)
    rw [hnil] at this
    simp [he, ← this]
  · simp [he, gatherFrames_flatten]

theorem mainRun_id (db : DB) (today now : String) (os : List Fetched)
    (h : ∀ p ∈ urls.zip os, check_existing_data db.fuel_prices today p.1 = true ∨
          fetch_and_process_data today p.2 = []) :
    mainRun db today now os = db := by
  rw [mainRun]
  have hnil := gatherFrames_nil db.fuel_prices today (urls.zip os) h
  simp [hnil]

/-! ## Query service lemmas -/

/-- The object payload of a JSON value known to be an object. -/
def jObjOf : Json → JsonObj
  | .obj o => o
  | _ => .nil

theorem ifGet (b : Bool) (po : JsonObj) (k : String) :
    (if b then pyGet (.obj po) k else some none) =
      some (if b then objGet po k else none) := by
  cases b <;> simp [pyGet]

theorem buildStation_obj (fo : JsonObj) (r : StoredRow) (po : JsonObj) :
    buildStation (.obj fo) r (.obj po) = some (stationOf fo r po) := by
  cases hu : flagOf fo "unleaded" <;> cases hsu : flagOf fo "superUnleaded" <;>
    cases hdi : flagOf fo "diesel" <;>
    simp [buildStation, pyFlag, pyGet, stationOf, hu, hsu, hdi]

theorem optMapM_some (f : α → Option β) (g : α → β) (l : List α)
    (h : ∀ a ∈ l, f a = some (g a)) : optMapM f l = some (l.map g) := by
  induction l with
  | nil => simp [optMapM]
  | cons a as ih =>
    have ih2 := ih (fun x hx => h x (by simp [hx]))
    simp [optMapM, h a (by simp), ih2]

theorem rowParsed_eq (r : StoredRow) (h1 : (loads r.location).isSome)
    (h2 : ∃ po, loads r.prices = some (.obj po)) :
    rowParsed r = some (r, (loads r.location).getD .null, .obj (prObjOf r)) := by
  obtain ⟨l, hl⟩ := Option.isSome_iff_exists.mp h1
  obtain ⟨po, hp⟩ := h2
  simp [rowParsed, hl, hp, prObjOf]

theorem rowParsed_eq2 (r : StoredRow) (h1 : (loads r.location).isSome)
    (h2 : (loads r.prices).isSome) :
    rowParsed r = some (r, (loads r.location).getD .null, (loads r.prices).getD .null) := by
  obtain ⟨l, hl⟩ := Option.isSome_iff_exists.mp h1
  obtain ⟨p, hp⟩ := Option.isSome_iff_exists.mp h2
  simp [rowParsed, hl, hp]

/-- The exception-free characterization of the endpoint: with a filters
mapping and today-rows whose blobs deserialize (prices to mappings), the
response is 200 with one station dict per postcode-retained row. -/
theorem kept_eq (L : List StoredRow) (pc : String) (f : StoredRow → StoredRow × Json × Json)
    (hfst : ∀ r, (f r).1 = r) (hcomp : rePatOk pc.data = true) :
    (if pc = "" then some (L.map f)
     else if rePatOk pc.data then
       some ((L.map f).filter (fun t => reSearch pc.data t.1.postcode.data))
     else none) = some ((L.filter (keepRow pc)).map f) := by
  by_cases hpc : pc = ""
  · subst hpc
    have hkr : (keepRow "") = fun _ : StoredRow => true := by
      funext r; simp [keepRow]
    simp [hkr, List.filter_true]
  · rw [if_neg hpc, if_pos hcomp, List.filter_map]
    have hfun : (keepRow pc) = ((fun t : StoredRow × Json × Json =>
        reSearch pc.data t.1.postcode.data) ∘ f) := by
      funext r
      simp [keepRow, Function.comp, hpc, hfst]
    rw [hfun]

theorem get_prices_ok (db : List StoredRow) (today pc : String) (fo : JsonObj)
    (h : RowsParseObj (db.filter (fun r => r.date == today)))
    (hcomp : rePatOk pc.data = true) :
    get_prices db today pc (some (.obj fo)) =
      .ok (((db.filter (fun r => r.date == today)).filter (keepRow pc)).map
        (fun r => stationOf fo r (prObjOf r))) := by
  have h1 : optMapM rowParsed (db.filter (fun r => r.date == today)) =
      some ((db.filter (fun r => r.date == today)).map
        (fun r => (r, (loads r.location).getD Json.null, Json.obj (prObjOf r)))) :=
    optMapM_some _ _ _ (fun r hr => rowParsed_eq r (h r hr).1 (h r hr).2)
  have h2 : optMapM (fun t => buildStation (.obj fo) t.1 t.2.2)
      (((db.filter (fun r => r.date == today)).filter (keepRow pc)).map
        (fun r => (r, (loads r.location).getD Json.null, Json.obj (prObjOf r)))) =
      some (((db.filter (fun r => r.date == today)).filter (keepRow pc)).map
        (fun r => stationOf fo r (prObjOf r))) := by
    have hb : ∀ t ∈ ((db.filter (fun r => r.date == today)).filter (keepRow pc)).map
        (fun r => (r, (loads r.location).getD Json.null, Json.obj (prObjOf r))),
        (fun t : StoredRow × Json × Json => buildStation (Json.obj fo) t.1 t.2.2) t =
          some ((fun t : StoredRow × Json × Json => stationOf fo t.1 (jObjOf t.2.2)) t) := by
      intro t ht
      obtain ⟨r, _, rfl⟩ := List.mem_map.mp ht
      simp [buildStation_obj, jObjOf]
    rw [optMapM_some _ _ _ hb, List.map_map]
    simp [Function.comp, jObjOf]
  simp only [get_prices, h1]
  rw [kept_eq _ pc _ (fun r => rfl) hcomp]
  simp only [h2]

/-- Zero retained rows give the empty 200 response, whatever the parsed
filters value is (the response loop never runs, so `filters.get` is never
evaluated). -/
theorem get_prices_empty (db : List StoredRow) (today pc : String) (filters : Json)
    (hcomp : rePatOk pc.data = true)
    (h : ∀ r ∈ db.filter (fun r => r.date == today),
      (loads r.location).isSome ∧ (loads r.prices).isSome)
    (hk : (db.filter (fun r => r.date == today)).filter (keepRow pc) = []) :
    get_prices db today pc (some filters) = .ok [] := by
  have h1 : optMapM rowParsed (db.filter (fun r => r.date == today)) =
      some ((db.filter (fun r => r.date == today)).map
        (fun r => (r, (loads r.location).getD Json.null, (loads r.prices).getD Json.null))) :=
    optMapM_some _ _ _ (fun r hr => rowParsed_eq2 r (h r hr).1 (h r hr).2)
  simp only [get_prices, h1]
  rw [kept_eq _ pc _ (fun r => rfl) hcomp, hk]
  simp [optMapM]

/-! ## Fetch failure lemmas -/

/-- The three kinds of failed fetches for one source: the request raised, the
content type is neither JSON nor plain text, or the body is not valid JSON. -/
def FetchFailed : Fetched → Prop := fun f =>
  f = .netError ∨
  (∃ ct b, f = .resp ct b ∧
    (pyInStr "application/json" ct || pyInStr "text/plain" ct) = false) ∨
  (∃ ct, f = .resp ct none)

theorem fetch_failed (today : String) (f : Fetched) (h : FetchFailed f) :
    fetch_and_process_data today f = [] := by
  rcases h with rfl | ⟨ct, b, rfl, hct⟩ | ⟨ct, rfl⟩
  · rfl
  · simp [fetch_and_process_data, hct]
  · by_cases hct : (pyInStr "application/json" ct || pyInStr "text/plain" ct) = true
    · simp [fetch_and_process_data, hct]
    · simp [fetch_and_process_data, hct]

theorem fetch_rows_date (today : String) (f : Fetched) (row : StoredRow)
    (h : row ∈ fetch_and_process_data today f) : row.date = today := by
  rcases f with _ | ⟨ct, body⟩
  · simp [fetch_and_process_data] at h
  · by_cases hct : (pyInStr "application/json" ct || pyInStr "text/plain" ct) = true
    · simp only [fetch_and_process_data] at h
      rw [if_pos hct] at h
      cases body with
      | none => simp at h
      | some data =>
        cases hx : extractStations data with
        | none => simp [hx] at h
        | some stations =>
          cases hy : stationsToRecords stations with
          | none => simp [hx, hy] at h
          | some recs =>
            simp [hx, hy] at h
            obtain ⟨rec, _, rfl⟩ := h
            rfl
    · simp only [fetch_and_process_data] at h
      rw [if_neg hct] at h
      simp at h

/-! ## Concrete fixtures for witnesses and counterexamples -/

/-- A concrete source-specific location sub-object. -/
def loc0 : Json :=
  .obj (.cons "latitude" (.num "51.5") (.cons "longitude" (.num "-0.1") .nil))

/-- A concrete prices mapping with all three grade codes. -/
def prObj0 : JsonObj :=
  .cons "E10" (.num "1.45") (.cons "E5" (.num "1.55") (.cons "B7" (.num "1.5") .nil))

def pr0 : Json := .obj prObj0

/-- A concrete well-formed raw station record. -/
def rec0 : RawStation := ⟨"s1", "Tesco", "1 High St", "SW1A1AA", loc0, pr0⟩

/-- `rec0` as the JSON object a feed would serve. -/
def rec0Json : Json :=
  .obj (.cons "site_id" (.str "s1") (.cons "brand" (.str "Tesco")
    (.cons "address" (.str "1 High St") (.cons "postcode" (.str "SW1A1AA")
      (.cons "location" loc0 (.cons "prices" pr0 .nil))))))

/-- A feed body with the records under a `stations` key. -/
def body0 : Json := .obj (.cons "stations" (.arr (.cons rec0Json .nil)) .nil)

def fetched0 : Fetched := .resp "application/json" (some body0)

/-- The stored row the pipeline produces from `rec0` on 2024-01-01. -/
def rowQ : StoredRow := normalizeRecord "2024-01-01" rec0

/-- A stored row with an empty prices mapping and postcode `AB1`. -/
def rowC : StoredRow := ⟨"s1", "Tesco", "1 High St", "AB1", "null", "{}", "2024-01-01"⟩

def dbW : DB := ⟨[rowQ], []⟩

/-! ## Claims -/

/-- C1: the already-fetched-today check is scoped only by the calendar date,
not by source: for every source URL, `check_existing_data` returns true
exactly when any row dated today exists in `fuel_prices`, regardless of
which source produced it; consequently, once any row for today exists the
whole run skips every source and leaves the database unchanged. -/
theorem c1_check_scoped_by_date_only (db : DB) (today now url : String)
    (os : List Fetched) :
    (check_existing_data db.fuel_prices today url = true ↔
      ∃ r ∈ db.fuel_prices, r.date = today) ∧
    ((∃ r ∈ db.fuel_prices, r.date = today) → mainRun db today now os = db) := by
  refine ⟨check_existing_data_iff _ _ _, ?_⟩
  intro hex
  exact mainRun_id db today now os
    (fun p _ => Or.inl ((check_existing_data_iff _ _ _).mpr hex))

theorem c1_witness :
    check_existing_data dbW.fuel_prices "2024-01-01" "u" = true ∧
    mainRun dbW "2024-01-01" "2024-01-01 09:00:00" [Fetched.netError] = dbW := by
  have h := c1_check_scoped_by_date_only dbW "2024-01-01" "2024-01-01 09:00:00" "u"
    [Fetched.netError]
  have hex : ∃ r ∈ dbW.fuel_prices, r.date = "2024-01-01" :=
    ⟨rowQ, by simp [dbW], rfl⟩
  exact ⟨h.1.mpr hex, h.2 hex⟩

/-- C2 (amended): `data.get('stations', data)` uses the `stations` value of a
mapping, or the whole mapping when the key is absent; but a parsed value
that is not a mapping (a bare array in particular) has no `.get`, so the
fetcher's exception path makes the source's contribution empty instead of
treating the array as the record sequence. -/
theorem c2_station_extraction (today ct : String) (o : JsonObj) (v : Json)
    (a : JsonList) :
    (objGet o "stations" = some v → extractStations (.obj o) = some v) ∧
    (objGet o "stations" = none → extractStations (.obj o) = some (.obj o)) ∧
    extractStations (.arr a) = none ∧
    fetch_and_process_data today (.resp ct (some (.arr a))) = [] := by
  refine ⟨?_, ?_, rfl, ?_⟩
  · intro h; simp [extractStations, h]
  · intro h; simp [extractStations, h]
  · by_cases hct : (pyInStr "application/json" ct || pyInStr "text/plain" ct) = true
    · simp [fetch_and_process_data, hct, extractStations]
    · simp [fetch_and_process_data, hct]

theorem c2_witness :
    extractStations (.obj (.cons "stations" (.arr .nil) .nil)) = some (.arr .nil) ∧
    extractStations (.obj (.cons "x" .null .nil)) =
      some (.obj (.cons "x" .null .nil)) ∧
    extractStations (.arr .nil) = none ∧
    fetch_and_process_data "2024-01-01" (.resp "application/json" (some (.arr .nil))) = [] :=
  ⟨(c2_station_extraction "2024-01-01" "application/json"
      (.cons "stations" (.arr .nil) .nil) (.arr .nil) .nil).1 rfl,
   (c2_station_extraction "2024-01-01" "application/json"
      (.cons "x" .null .nil) .null .nil).2.1 rfl,
   (c2_station_extraction "2024-01-01" "application/json" .nil .null .nil).2.2.1,
   (c2_station_extraction "2024-01-01" "application/json" .nil .null .nil).2.2.2⟩

/-- C2 counterexample: a fetched body that parses to a bare JSON array of
one well-formed station record contributes nothing (the claim as stated
would make it contribute the normalized record). -/
theorem c2_counterexample :
    fetch_and_process_data "2024-01-02"
      (.resp "application/json" (some (.arr (.cons rec0Json .nil)))) = [] ∧
    stationsToRecords (.arr (.cons rec0Json .nil)) = some [rec0] ∧
    [rec0].map (normalizeRecord "2024-01-02") ≠ [] :=
  ⟨rfl, rfl, by simp⟩

/-- C3 (amended): a `filters` query parameter that is not valid JSON makes
`json.loads` raise with no handler in the view, so the request is answered
with the framework's 500 server error, not a 4xx client error. -/
theorem c3_malformed_filters_500 (db : List StoredRow) (today pc : String) :
    get_prices db today pc none = .serverError ∧
    statusOf (get_prices db today pc none) = 500 :=
  ⟨rfl, rfl⟩

/-- C3 counterexample: at a concrete request whose filters parameter fails
to parse, the status is 500, which is not a 4xx client-error status. -/
theorem c3_counterexample :
    statusOf (get_prices [] "2024-01-01" "" none) = 500 ∧
    ¬(400 ≤ statusOf (get_prices [] "2024-01-01" "" none) ∧
      statusOf (get_prices [] "2024-01-01" "" none) < 500) :=
  ⟨rfl, by decide⟩

/-- C4: every row a fetch produces carries the run's current date, and the
normalizer's `location`/`prices` text encodings deserialize (with the same
`loads` the query service applies) back to the original structured values. -/
theorem c4_normalize_roundtrip (today : String) (rec : RawStation) (f : Fetched)
    (row : StoredRow) :
    (row ∈ fetch_and_process_data today f → row.date = today) ∧
    (jOk rec.location = true → jOk rec.prices = true →
      (normalizeRecord today rec).date = today ∧
      loads (normalizeRecord today rec).location = some rec.location ∧
      loads (normalizeRecord today rec).prices = some rec.prices) := by
  refine ⟨fetch_rows_date today f row, ?_⟩
  intro h1 h2
  exact ⟨rfl, loads_dumps _ h1, loads_dumps _ h2⟩

theorem c4_witness :
    (normalizeRecord "2024-01-01" rec0).date = "2024-01-01" ∧
    loads (normalizeRecord "2024-01-01" rec0).location = some rec0.location ∧
    loads (normalizeRecord "2024-01-01" rec0).prices = some rec0.prices := by
  have h := c4_normalize_roundtrip "2024-01-01" rec0 fetched0
    (normalizeRecord "2024-01-01" rec0)
  have hmem : normalizeRecord "2024-01-01" rec0 ∈
      fetch_and_process_data "2024-01-01" fetched0 := by
    have he : fetch_and_process_data "2024-01-01" fetched0 =
        [normalizeRecord "2024-01-01" rec0] := rfl
    rw [he]
    exact List.mem_singleton.mpr rfl
  exact ⟨h.1 hmem, (h.2 rfl rfl).2.1, (h.2 rfl rfl).2.2⟩

/-- C5: a failed fetch (network error, wrong content type, or non-JSON body)
contributes the empty row list without raising, and the run's final
`fuel_prices` content is the initial rows plus exactly the concatenated
per-source contributions, so one source's failure never blocks the others
or the bulk append of the rows that succeeded. -/
theorem c5_failure_isolation (f : Fetched) (db : DB) (today now : String)
    (os : List Fetched) (h : FetchFailed f) :
    fetch_and_process_data today f = [] ∧
    (mainRun db today now os).fuel_prices =
      db.fuel_prices ++
        ((urls.zip os).map (fun p =>
          if check_existing_data db.fuel_prices today p.1 then []
          else fetch_and_process_data today p.2)).flatten :=
  ⟨fetch_failed today f h, mainRun_fuel_prices db today now os⟩

theorem c5_witness :
    fetch_and_process_data "2024-01-01" Fetched.netError = [] ∧
    (mainRun ⟨[], []⟩ "2024-01-01" "2024-01-01 09:00:00"
        [Fetched.netError, fetched0]).fuel_prices =
      (⟨[], []⟩ : DB).fuel_prices ++
        ((urls.zip [Fetched.netError, fetched0]).map (fun p =>
          if check_existing_data (⟨[], []⟩ : DB).fuel_prices "2024-01-01" p.1 then []
          else fetch_and_process_data "2024-01-01" p.2)).flatten :=
  c5_failure_isolation Fetched.netError ⟨[], []⟩ "2024-01-01" "2024-01-01 09:00:00"
    [Fetched.netError, fetched0] (Or.inl rfl)

/-- C6: each absent filter key defaults to true; a boolean filter value is
used as the flag; each output field is the price under its grade code
(`E10`/`E5`/`B7`) when its flag is true and null when false; with the
default empty filters object all three fields carry their stored prices;
and, for a metacharacter-free postcode parameter (the fragment where the
postcode filter model is faithful, see C7), the endpoint's 200 response is
exactly one such station dict per retained row. -/
theorem c6_filter_defaults_and_grades (db : List StoredRow) (today pc : String)
    (fo po : JsonObj) (r : StoredRow) :
    (objGet fo "unleaded" = none → flagOf fo "unleaded" = true) ∧
    (objGet fo "superUnleaded" = none → flagOf fo "superUnleaded" = true) ∧
    (objGet fo "diesel" = none → flagOf fo "diesel" = true) ∧
    (∀ b, objGet fo "unleaded" = some (.jbool b) → flagOf fo "unleaded" = b) ∧
    (∀ b, objGet fo "superUnleaded" = some (.jbool b) → flagOf fo "superUnleaded" = b) ∧
    (∀ b, objGet fo "diesel" = some (.jbool b) → flagOf fo "diesel" = b) ∧
    ((stationOf fo r po).unleaded =
      if flagOf fo "unleaded" then objGet po "E10" else none) ∧
    ((stationOf fo r po).superUnleaded =
      if flagOf fo "superUnleaded" then objGet po "E5" else none) ∧
    ((stationOf fo r po).diesel =
      if flagOf fo "diesel" then objGet po "B7" else none) ∧
    ((stationOf .nil r po).unleaded = objGet po "E10" ∧
     (stationOf .nil r po).superUnleaded = objGet po "E5" ∧
     (stationOf .nil r po).diesel = objGet po "B7") ∧
    ((∀ c ∈ pc.data, plainChar c = true) →
      RowsParseObj (db.filter (fun x => x.date == today)) →
      get_prices db today pc (some (.obj fo)) =
        .ok (((db.filter (fun x => x.date == today)).filter (keepRow pc)).map
          (fun x => stationOf fo x (prObjOf x)))) := by
  refine ⟨fun h => by simp [flagOf, h], fun h => by simp [flagOf, h],
    fun h => by simp [flagOf, h],
    fun b h => by simp [flagOf, h, pyTruthy],
    fun b h => by simp [flagOf, h, pyTruthy],
    fun b h => by simp [flagOf, h, pyTruthy],
    rfl, rfl, rfl,
    ⟨by simp [stationOf, flagOf, objGet], by simp [stationOf, flagOf, objGet],
     by simp [stationOf, flagOf, objGet]⟩,
    fun hp h => get_prices_ok db today pc fo h (rePatOk_of_plain hp)⟩

theorem c6_witness :
    flagOf .nil "unleaded" = true ∧
    flagOf (.cons "diesel" (.jbool false) .nil) "diesel" = false ∧
    get_prices [rowQ] "2024-01-01" "" (some (.obj .nil)) =
      .ok ((([rowQ].filter (fun x => x.date == "2024-01-01")).filter (keepRow "")).map
        (fun x => stationOf .nil x (prObjOf x))) := by
  have h := c6_filter_defaults_and_grades [rowQ] "2024-01-01" ""
    (.cons "diesel" (.jbool false) .nil) JsonObj.nil rowQ
  have h0 := c6_filter_defaults_and_grades [rowQ] "2024-01-01" "" JsonObj.nil
    JsonObj.nil rowQ
  refine ⟨h0.1 rfl, h.2.2.2.2.2.1 false rfl, ?_⟩
  refine h0.2.2.2.2.2.2.2.2.2.2 (by decide) ?_
  intro r hr
  have hf : List.filter (fun x => x.date == "2024-01-01") [rowQ] = [rowQ] := rfl
  rw [hf] at hr
  have : r = rowQ := List.mem_singleton.mp hr
  subst this
  exact ⟨rfl, ⟨prObj0, rfl⟩⟩

/-- C7 (amended): the postcode parameter is applied as a case-insensitive
regular-expression search (`str.contains` defaults to `regex=True`); for
parameters made of regex-literal characters (letters, digits, spaces) this
is exactly the case-insensitive substring test, and an empty parameter
excludes no row; but a metacharacter such as `'.'` matches any character
rather than a literal dot. -/
theorem c7_postcode_filter (db : List StoredRow) (today pc : String) (fo : JsonObj)
    (h : RowsParseObj (db.filter (fun r => r.date == today)))
    (hp : ∀ c ∈ pc.data, plainChar c = true) :
    get_prices db today pc (some (.obj fo)) =
      .ok (((db.filter (fun r => r.date == today)).filter
          (fun r => pc == "" || substrCI pc r.postcode)).map
        (fun r => stationOf fo r (prObjOf r))) := by
  rw [get_prices_ok db today pc fo h (rePatOk_of_plain hp)]
  have hk : (keepRow pc) = fun r : StoredRow => pc == "" || substrCI pc r.postcode := by
    funext r
    rw [keepRow, reSearch_eq_substrCI pc r.postcode hp]
  rw [hk]

theorem c7_witness :
    get_prices [rowQ] "2024-01-01" "sw1a" (some (.obj .nil)) =
      .ok ((([rowQ].filter (fun r => r.date == "2024-01-01")).filter
          (fun r => ("sw1a" == "") || substrCI "sw1a" r.postcode)).map
        (fun r => stationOf .nil r (prObjOf r))) := by
  refine c7_postcode_filter [rowQ] "2024-01-01" "sw1a" JsonObj.nil ?_ (by decide)
  intro r hr
  have hf : List.filter (fun x => x.date == "2024-01-01") [rowQ] = [rowQ] := rfl
  rw [hf] at hr
  have : r = rowQ := List.mem_singleton.mp hr
  subst this
  exact ⟨rfl, ⟨prObj0, rfl⟩⟩

/-- C7 counterexample: with postcode parameter `"."` the row with postcode
`AB1` is retained (the dot is a regex wildcard), although `"."` is not a
case-insensitive substring of `"AB1"` — refuting the substring reading. -/
theorem c7_counterexample :
    get_prices [rowC] "2024-01-01" "." (some (.obj .nil)) =
      .ok [⟨"Tesco", "1 High St", "AB1", none, none, none⟩] ∧
    substrCI "." "AB1" = false :=
  ⟨rfl, rfl⟩

/-- C8: when every source is skipped or contributes nothing, the run
performs no bulk append and no metadata replacement: the database state
(both tables) after `main` is exactly the state before, and the run is a
total function (no error). -/
theorem c8_empty_batch_no_effect (db : DB) (today now : String) (os : List Fetched)
    (h : ∀ p ∈ urls.zip os, check_existing_data db.fuel_prices today p.1 = true ∨
      fetch_and_process_data today p.2 = []) :
    mainRun db today now os = db :=
  mainRun_id db today now os h

theorem c8_witness :
    mainRun ⟨[], [⟨"2023-12-31 09:00:00"⟩]⟩ "2024-01-01" "2024-01-01 09:00:00"
      [Fetched.netError] = ⟨[], [⟨"2023-12-31 09:00:00"⟩]⟩ := by
  refine c8_empty_batch_no_effect _ "2024-01-01" "2024-01-01 09:00:00" [Fetched.netError] ?_
  intro p hp
  have hz : urls.zip [Fetched.netError] =
      [("https://applegreenstores.com/fuel-prices/data.json", Fetched.netError)] := rfl
  rw [hz] at hp
  have : p = ("https://applegreenstores.com/fuel-prices/data.json", Fetched.netError) :=
    List.mem_singleton.mp hp
  subst this
  exact Or.inr rfl

/-- C9 (amended): a request whose filters parse and whose postcode parameter
is metacharacter-free, over a today-snapshot whose rows all deserialize,
with no row surviving the postcode filter (in particular an empty
snapshot), is answered `200` with the empty JSON array; outside that
fragment an uncompilable postcode parameter makes the view raise, so "never
an error for zero matches" does not hold of the program in general. -/
theorem c9_empty_result_200 (db : List StoredRow) (today pc : String) (filters : Json)
    (hp : ∀ c ∈ pc.data, plainChar c = true)
    (h : ∀ r ∈ db.filter (fun r => r.date == today),
      (loads r.location).isSome ∧ (loads r.prices).isSome)
    (hk : (db.filter (fun r => r.date == today)).filter (keepRow pc) = []) :
    get_prices db today pc (some filters) = .ok [] ∧
    statusOf (get_prices db today pc (some filters)) = 200 := by
  have he := get_prices_empty db today pc filters (rePatOk_of_plain hp) h hk
  exact ⟨he, by rw [he]; rfl⟩

/-- C9 counterexample: the postcode parameter `"("` over an empty table —
so the request matches zero stored rows for today — is answered with a 500
server error, not the claimed empty array with 200: `str.contains` first
runs `re.compile('(', re.IGNORECASE)`, which raises `re.error` (unbalanced
parenthesis) before any row is examined, and the view has no handler. -/
theorem c9_counterexample :
    get_prices [] "2024-01-01" "(" (some (.obj .nil)) = .serverError ∧
    statusOf (get_prices [] "2024-01-01" "(" (some (.obj .nil))) = 500 ∧
    List.filter (fun r : StoredRow => r.date == "2024-01-01") [] = [] :=
  ⟨rfl, rfl, rfl⟩

theorem c9_witness :
    get_prices [rowC] "2024-01-01" "ZZ9" (some (.obj .nil)) = .ok [] ∧
    statusOf (get_prices [rowC] "2024-01-01" "ZZ9" (some (.obj .nil))) = 200 := by
  refine c9_empty_result_200 [rowC] "2024-01-01" "ZZ9" (.obj .nil) (by decide) ?_ rfl
  intro r hr
  have hf : List.filter (fun x => x.date == "2024-01-01") [rowC] = [rowC] := rfl
  rw [hf] at hr
  have : r = rowC := List.mem_singleton.mp hr
  subst this
  exact ⟨rfl, rfl⟩

/-- C10: for a metacharacter-free postcode parameter (the fragment where
the postcode filter model is faithful, see C7), a retained row whose
deserialized prices mapping lacks a grade code yields null in the
corresponding output field (even with the filter flag true, since the `if`
then gives the absent lookup's `None`), and the row is still one of the
response's station dicts. -/
theorem c10_missing_grade_null (db : List StoredRow) (today pc : String)
    (fo po : JsonObj) (r : StoredRow)
    (hp : ∀ c ∈ pc.data, plainChar c = true)
    (h : RowsParseObj (db.filter (fun x => x.date == today)))
    (hr : r ∈ db.filter (fun x => x.date == today))
    (hkeep : keepRow pc r = true)
    (hpo : loads r.prices = some (.obj po)) :
    (objGet po "E10" = none → (stationOf fo r po).unleaded = none) ∧
    (objGet po "E5" = none → (stationOf fo r po).superUnleaded = none) ∧
    (objGet po "B7" = none → (stationOf fo r po).diesel = none) ∧
    ∃ out, get_prices db today pc (some (.obj fo)) = .ok out ∧
      stationOf fo r po ∈ out := by
  have hpr : prObjOf r = po := by simp [prObjOf, hpo]
  refine ⟨fun hg => by simp [stationOf, hg],
    fun hg => by simp [stationOf, hg],
    fun hg => by simp [stationOf, hg], ?_⟩
  refine ⟨_, get_prices_ok db today pc fo h (rePatOk_of_plain hp), ?_⟩
  rw [← hpr]
  exact List.mem_map.mpr ⟨r, List.mem_filter.mpr ⟨hr, hkeep⟩, rfl⟩

theorem c10_witness :
    (objGet JsonObj.nil "E10" = none →
      (stationOf JsonObj.nil rowC JsonObj.nil).unleaded = none) ∧
    (objGet JsonObj.nil "E5" = none →
      (stationOf JsonObj.nil rowC JsonObj.nil).superUnleaded = none) ∧
    (objGet JsonObj.nil "B7" = none →
      (stationOf JsonObj.nil rowC JsonObj.nil).diesel = none) ∧
    ∃ out, get_prices [rowC] "2024-01-01" "" (some (.obj .nil)) = .ok out ∧
      stationOf JsonObj.nil rowC JsonObj.nil ∈ out := by
  refine c10_missing_grade_null [rowC] "2024-01-01" "" JsonObj.nil JsonObj.nil rowC
    (by decide) ?_ ?_ rfl rfl
  · intro r hr
    have hf : List.filter (fun x => x.date == "2024-01-01") [rowC] = [rowC] := rfl
    rw [hf] at hr
    have : r = rowC := List.mem_singleton.mp hr
    subst this
    exact ⟨rfl, ⟨JsonObj.nil, rfl⟩⟩
  · have hf : List.filter (fun x => x.date == "2024-01-01") [rowC] = [rowC] := rfl
    rw [hf]
    exact List.mem_singleton.mpr rfl
